import Mathlib

/-!
# Verification of the data-freshness and retrieval subsystem

Shallow embedding of the cache / fetch-orchestration layer (`api_agent.py`),
the risk-clustering analysis (`analysis_agent.py`) and the vector retrieval
store (`retriever_agent.py`) of the Multi-agent-Finance repository, together
with theorems settling the frozen claims about them.

Modelling conventions:
* Python `dict`s become association lists with Python's insertion-order
  update semantics (`dictSet`); `datetime.now()` becomes an explicit `now : Nat`
  measured in whole seconds; floats become `Rat` (no claim depends on
  floating-point rounding); a fallible external call becomes an `Option`/`Except`
  valued oracle passed in as a parameter.
* `np.std` returns a square root, which leaves `ℚ`; wherever a standard
  deviation is stored in a result record we store its square (the variance)
  instead, which is order-equivalent.  No claim depends on the magnitude.
-/

/-- A per-symbol market-data payload, as built by
`APIAgent._fetch_concurrent_data.fetch_single` (`api_agent.py` lines 69-73):
`{"price": float(...), "change": float(...), "volume": int(...)}`. -/
structure Quote where
  price : Rat
  change : Rat
  volume : Int
deriving DecidableEq

/-- Python `dict` assignment `m[k] = v`: replace the value in place if the key
is present (keeping the key's original position), otherwise append the new
binding at the end (dict preserves insertion order). -/
def dictSet {α : Type} (m : List (String × α)) (k : String) (v : α) :
    List (String × α) :=
  if m.any (fun p => p.1 == k) then
    m.map (fun p => if p.1 == k then (k, v) else p)
  else
    m ++ [(k, v)]

/-- Python `m.get(k)` on an association list. -/
def dictGet {α : Type} (m : List (String × α)) (k : String) : Option α :=
  (m.find? (fun p => p.1 == k)).map (fun p => p.2)

/-- `self.cache_duration = 60  # 1 minute cache` (`api_agent.py` line 24). -/
def cache_duration : Nat := 60

/-- `(datetime.now() - timestamp).seconds` (`api_agent.py` line 52): the
`seconds` field of a `timedelta` is the elapsed time *modulo one day*
(86400 s), not the total elapsed seconds. -/
def tdSeconds (now ts : Nat) : Nat := (now - ts) % 86400

/-- The mutable state of `APIAgent` relevant to caching:
`self.cache` maps a symbol to `(data, timestamp)` (`api_agent.py` line 23),
and the `functools.lru_cache(maxsize=100)` decorator on `_get_cached_data`
(line 47) keeps its own memo of previously returned results, most recently
used first. -/
structure CacheState where
  cache : List (String × (Quote × Nat))
  memo : List (String × Option Quote)
deriving DecidableEq

/-- `lru_cache` table lookup. -/
def memoLookup (memo : List (String × Option Quote)) (k : String) :
    Option (Option Quote) :=
  (memo.find? (fun p => p.1 == k)).map (fun p => p.2)

/-- On an `lru_cache` hit the entry is moved to the most-recently-used slot. -/
def memoHit (memo : List (String × Option Quote)) (k : String) :
    List (String × Option Quote) :=
  match memo.find? (fun p => p.1 == k) with
  | some e => e :: memo.eraseP (fun p => p.1 == k)
  | none => memo

/-- On an `lru_cache` miss the freshly computed result is stored and, past
`maxsize=100` entries, the least recently used entry is evicted. -/
def memoInsert (memo : List (String × Option Quote)) (k : String)
    (r : Option Quote) : List (String × Option Quote) :=
  ((k, r) :: memo).take 100

/-- Body of `APIAgent._get_cached_data` (`api_agent.py` lines 50-54): return
the cached payload if present and `(now - timestamp).seconds` is below the
TTL, else `None`. -/
def getCachedDataRaw (st : CacheState) (now : Nat) (symbol : String) :
    Option Quote :=
  match dictGet st.cache symbol with
  | some (data, ts) => if tdSeconds now ts < cache_duration then some data else none
  | none => none

/-- `APIAgent._get_cached_data` as actually called: the `@lru_cache(maxsize=100)`
decorator (`api_agent.py` line 47) intercepts the call, so a previously
memoized result for the symbol is returned without re-running the body. -/
def getCachedData (st : CacheState) (now : Nat) (symbol : String) :
    Option Quote × CacheState :=
  match memoLookup st.memo symbol with
  | some r => (r, { st with memo := memoHit st.memo symbol })
  | none =>
    let r := getCachedDataRaw st now symbol
    (r, { st with memo := memoInsert st.memo symbol r })

/-- `self.cache[symbol] = (data, datetime.now())` (`api_agent.py` line 76). -/
def putCache (st : CacheState) (now : Nat) (symbol : String) (data : Quote) :
    CacheState :=
  { st with cache := dictSet st.cache symbol (data, now) }

/-- `fetch_single` (`api_agent.py` lines 58-80).  The external Yahoo-Finance
call is the oracle `fetch : String → Option Quote`; `fetch s = none` models an
exception (network error, timeout, malformed response), which the `except`
clause maps to `{symbol: None}`.  On success the payload is written back to
the cache before being returned. -/
def fetchSingle (fetch : String → Option Quote) (st : CacheState) (now : Nat)
    (symbol : String) : (String × Option Quote) × CacheState :=
  let c := getCachedData st now symbol
  match c.1 with
  | some d => ((symbol, some d), c.2)
  | none =>
    match fetch symbol with
    | some data => ((symbol, some data), putCache c.2 now symbol data)
    | none => ((symbol, none), c.2)

/-- The per-symbol task list created at `api_agent.py` line 88 and gathered at
line 89, linearized in task order (the semaphore interleaving does not affect
which `{symbol: value}` dict each task returns, and `asyncio.gather` returns
results in task order). -/
def fetchTasks (fetch : String → Option Quote) (st : CacheState) (now : Nat) :
    List String → List (String × Option Quote) × CacheState
  | [] => ([], st)
  | sym :: rest =>
    let r := fetchSingle fetch st now sym
    let rs := fetchTasks fetch r.2 now rest
    (r.1 :: rs.1, rs.2)

/-- `APIAgent._fetch_concurrent_data` (`api_agent.py` lines 56-96): run one
task per requested symbol, then fold the singleton dicts together with
`combined_data.update(result)` (lines 92-94). -/
def fetchConcurrentData (fetch : String → Option Quote) (st : CacheState)
    (now : Nat) (symbols : List String) :
    List (String × Option Quote) × CacheState :=
  let rs := fetchTasks fetch st now symbols
  (rs.1.foldl (fun m p => dictSet m p.1 p.2) [], rs.2)

/-- `symbols = ["AAPL", "GOOGL", "MSFT", "AMZN"]` (`api_agent.py` line 101). -/
def marketSymbols : List String := ["AAPL", "GOOGL", "MSFT", "AMZN"]

/-- The fixed placeholder payload of `get_market_data`
(`api_agent.py` lines 112-118): `{"price": 100.0, "change": 1.5, "volume": 1000000}`. -/
def sampleQuote : Quote := { price := 100, change := 3 / 2, volume := 1000000 }

/-- `APIAgent.get_market_data` (`api_agent.py` lines 98-136), restricted to the
`stocks` component of its result: fetch the four fixed symbols, drop the
`None` values, and substitute the `"SAMPLE"` placeholder when nothing is
left.  The `except` branch (lines 125-136) returns the same placeholder map. -/
def getMarketData (fetch : String → Option Quote) (st : CacheState)
    (now : Nat) : List (String × Quote) :=
  let data := (fetchConcurrentData fetch st now marketSymbols).1
  let filtered := data.filterMap (fun p => p.2.map (fun q => (p.1, q)))
  if filtered.isEmpty then [("SAMPLE", sampleQuote)] else filtered

/-! ## Semaphore-bounded concurrency (`api_agent.py` lines 82-89)

`semaphore = asyncio.Semaphore(10)` and each task runs
`async with semaphore: await fetch_single(symbol)`, so a task is either not
yet admitted, holding the semaphore while its fetch is in flight, or finished
(semaphore released).  The semaphore counter starts at 10 and equals
`10 - (number of holders)`, so an acquire can only proceed while fewer than 10
tasks hold it.  We model this as a small-step transition system over the
per-task phases. -/

/-- Phase of one `fetch_with_semaphore` task. -/
inductive TaskPhase where
  | pending : TaskPhase
  | inFlight : TaskPhase
  | finished : TaskPhase
deriving DecidableEq

/-- `asyncio.Semaphore(10)` (`api_agent.py` line 83). -/
def semLimit : Nat := 10

/-- Number of tasks currently holding the semaphore, i.e. with their external
fetch in flight. -/
def inFlightCount (ts : List TaskPhase) : Nat :=
  ts.countP (fun p => p == TaskPhase.inFlight)

/-- One scheduler step of the gathered fetch tasks: a pending task may enter
its fetch only when the semaphore counter `10 - inFlightCount` is positive;
an in-flight task may finish at any time, releasing the semaphore. -/
inductive FetchStep : List TaskPhase → List TaskPhase → Prop where
  | acquire (ts : List TaskPhase) (i : Nat) (hp : ts.get? i = some TaskPhase.pending)
      (hsem : inFlightCount ts < semLimit) :
      FetchStep ts (ts.set i TaskPhase.inFlight)
  | release (ts : List TaskPhase) (i : Nat) (hf : ts.get? i = some TaskPhase.inFlight) :
      FetchStep ts (ts.set i TaskPhase.finished)

/-- States reachable from the start of `asyncio.gather` over any number of
symbols: initially every task is pending. -/
inductive FetchReachable : List TaskPhase → Prop where
  | init (n : Nat) : FetchReachable (List.replicate n TaskPhase.pending)
  | step {s t : List TaskPhase} : FetchReachable s → FetchStep s t →
      FetchReachable t

/-! ## Risk clustering (`analysis_agent.py`) -/

/-- One row of the `stocks_df` DataFrame built at `analysis_agent.py` line 44
from the fetcher's stocks map: the symbol (the DataFrame index) together with
the three numeric feature columns.  Dict keys are unique, so the symbols of a
batch are distinct.  Every payload produced by the fetcher carries all three
fields, so `SimpleImputer` (line 120) is the identity on these batches. -/
structure Snapshot where
  symbol : String
  price : Rat
  change : Rat
  volume : Rat
deriving DecidableEq

/-- `self.risk_levels = ["low", "medium", "high"]` (`analysis_agent.py` line 14). -/
def risk_levels : List String := ["low", "medium", "high"]

/-- One entry of the list built at `analysis_agent.py` lines 141-145.
`average_volatility` carries the *square* of `np.std(cluster_changes)` (the
population variance), since the square root leaves `ℚ`; no claim depends on
its magnitude. -/
structure RiskCluster where
  risk_level : String
  symbols : List String
  average_volatility : Rat
deriving DecidableEq

/-- Population variance: the square of `np.std(xs)` (default `ddof=0`). -/
def popVariance (xs : List Rat) : Rat :=
  let n : Rat := xs.length
  let mu := xs.sum / n
  (xs.map (fun x => (x - mu) ^ 2)).sum / n

/-- `features = stocks_df[['price', 'change', 'volume']].to_numpy(...)`
(`analysis_agent.py` line 117). -/
def featureRows (snaps : List Snapshot) : List (List Rat) :=
  snaps.map (fun s => [s.price, s.change, s.volume])

/-- Whether a feature column is constant over the batch (sample standard
deviation zero). -/
def columnConstant (snaps : List Snapshot) (f : Snapshot → Rat) : Bool :=
  match snaps with
  | [] => true
  | s :: rest => rest.all (fun t => f t == f s)

/-- Finiteness of the standardization
`(features - mean) / np.std(features, axis=0, ddof=1)`
(`analysis_agent.py` line 123): with fewer than two rows the `ddof=1` standard
deviation is `NaN`, and with a constant column it is `0`; in both cases the
standardized matrix contains `NaN`/`inf` values, on which the subsequent
`fit_predict` raises (`sklearn` rejects non-finite input), landing in the
`except` branch. -/
def normalizableB (snaps : List Snapshot) : Bool :=
  decide (2 ≤ snaps.length) && !columnConstant snaps (fun s => s.price) &&
    !columnConstant snaps (fun s => s.change) &&
    !columnConstant snaps (fun s => s.volume)

/-- Member symbols of cluster `i`:
`cluster_symbols = stocks_df.index[labels == i].tolist()`
(`analysis_agent.py` lines 135-136). -/
def clusterMembers (snaps : List Snapshot) (labels : List Nat) (i : Nat) :
    List String :=
  ((snaps.zip labels).filter (fun p => p.2 == i)).map (fun p => p.1.symbol)

/-- Raw `change` values of cluster `i`'s members:
`stocks_df.loc[cluster_symbols, 'change']` (`analysis_agent.py` line 139),
which under distinct symbols selects exactly the member rows. -/
def clusterChanges (snaps : List Snapshot) (labels : List Nat) (i : Nat) :
    List Rat :=
  ((snaps.zip labels).filter (fun p => p.2 == i)).map (fun p => p.1.change)

/-- One iteration of the cluster-building loop (`analysis_agent.py`
lines 134-145): `none` when cluster `i` has no members (the `if
cluster_symbols:` guard), otherwise the cluster record. -/
def mkCluster (snaps : List Snapshot) (labels : List Nat) (i : Nat) :
    Option RiskCluster :=
  let members := clusterMembers snaps labels i
  if members.isEmpty then none
  else
    let changes := clusterChanges snaps labels i
    some { risk_level := risk_levels.getD i "",
           symbols := members,
           average_volatility :=
             if changes.length > 1 then popVariance changes else 0 }

/-- `AnalysisAgent._analyze_risk_clusters` (`analysis_agent.py` lines 110-151).

The external clustering capability `self.kmeans.fit_predict` — whose
`MiniBatchKMeans` was constructed once with `n_clusters=len(self.risk_levels)=3`
(line 16); the locally computed `n_clusters` is *not* passed to it — is the
oracle `fitPredict`, applied to the feature rows (the per-column affine
standardization is injective, so quantifying over oracles of the raw rows
loses nothing); `Except.error` models `fit_predict` raising, which the
`except` clause (lines 149-151) maps to `[]`.  `normalizableB` captures the
cases in which the standardized matrix is non-finite and `fit_predict`
therefore raises unconditionally. -/
def analyzeRiskClusters (fitPredict : List (List Rat) → Except Unit (List Nat))
    (snaps : List Snapshot) : List RiskCluster :=
  if snaps.isEmpty then []
  else if !normalizableB snaps then []
  else
    let n_clusters := min risk_levels.length snaps.length
    if n_clusters < 1 then []
    else
      match fitPredict (featureRows snaps) with
      | Except.error _ => []
      | Except.ok labels =>
        (List.range n_clusters).filterMap (mkCluster snaps labels)

/-- Model of `self.kmeans.fit_predict` for the `MiniBatchKMeans` instance the
agent constructed with `n_clusters=3` (`analysis_agent.py` line 16): `sklearn`
raises `ValueError` whenever fewer than 3 samples are supplied
(`n_samples < n_clusters`), and otherwise returns one label below 3 per row.
Any label choice consistent with that signature suffices for the
counterexample; this one puts every row in cluster 0. -/
def kmeans3 : List (List Rat) → Except Unit (List Nat) := fun rows =>
  if rows.length < 3 then Except.error () else Except.ok (rows.map (fun _ => 0))

/-- The claim's partition property: every input symbol appears in exactly one
cluster's member set. -/
def clusterPartitionOk (snaps : List Snapshot) (cs : List RiskCluster) : Prop :=
  ∀ s ∈ snaps, cs.countP (fun c => decide (s.symbol ∈ c.symbols)) = 1

/-! ## Vector retrieval store (`retriever_agent.py`) -/

/-- One stored document (`retriever_agent.py`: elements of `self.documents`),
with the fields the mutations touch. -/
structure Doc where
  id : String
  content : String
  timestamp : Nat
deriving DecidableEq

/-- The store's mutable pair: the FAISS `IndexFlatL2` — an ordered sequence of
vectors, ids being positions — and the parallel `self.documents` list
(`retriever_agent.py` lines 17-18). -/
structure Store where
  index : List (List Rat)
  documents : List Doc
deriving DecidableEq

/-- The Python loop `for i, doc in enumerate(self.documents): if doc.get("id")
== doc_id: doc_idx = i; break` (`retriever_agent.py` lines 126-129 and
156-159). -/
def findDocIdx : List Doc → String → Option Nat
  | [], _ => none
  | d :: ds, docId =>
    if d.id == docId then some 0 else (findDocIdx ds docId).map (fun i => i + 1)

/-- `index.remove_ids(np.array([i]))` on a flat index removes the vector at
position `i` (a no-op when `i` is out of range) and compacts the remaining
positions; `List.eraseIdx` has exactly these semantics. -/
def removeId (index : List (List Rat)) (i : Nat) : List (List Rat) :=
  index.eraseIdx i

/-- Replace the element at position `i` (`self.documents[doc_idx][...] = ...`). -/
def listModify {α : Type} (l : List α) (i : Nat) (f : α → α) : List α :=
  match l.get? i with
  | some a => l.set i (f a)
  | none => l

/-- `RetrieverAgent.add_documents` (`retriever_agent.py` lines 68-87).
`encode` is the external `self.model.encode` applied to the content list;
`none` models it raising, in which case the `except` clause leaves the state
unchanged.  On success the embeddings are appended to the index and the raw
documents to the document list. -/
def add_documents (encode : List String → Option (List (List Rat)))
    (docs : List Doc) (s : Store) : Store :=
  match encode (docs.map (fun d => d.content)) with
  | none => s
  | some embs => { index := s.index ++ embs, documents := s.documents ++ docs }

/-- `RetrieverAgent.update_document` (`retriever_agent.py` lines 121-149):
locate by id (no-op when absent), re-embed the new content, remove the old
position from the index, append the new vector, and update the document's
content and timestamp in place. -/
def update_document (encode : List String → Option (List (List Rat)))
    (docId content : String) (now : Nat) (s : Store) : Store :=
  match findDocIdx s.documents docId with
  | none => s
  | some i =>
    match encode [content] with
    | none => s
    | some newEmb =>
      { index := removeId s.index i ++ newEmb,
        documents := listModify s.documents i
          (fun d => { d with content := content, timestamp := now }) }

/-- `RetrieverAgent.delete_document` (`retriever_agent.py` lines 151-172):
locate by id (no-op when absent), remove that position from the index and
`pop` the document. -/
def delete_document (docId : String) (s : Store) : Store :=
  match findDocIdx s.documents docId with
  | none => s
  | some i =>
    { index := removeId s.index i, documents := s.documents.eraseIdx i }

/-- A persisted artifact as `_load_index` can encounter it: the file is
missing, or present but deserialization raises, or present and readable. -/
inductive Artifact (α : Type) where
  | missing : Artifact α
  | corrupt : Artifact α
  | ok : α → Artifact α
deriving DecidableEq

/-- `path.exists()`. -/
def Artifact.present {α : Type} : Artifact α → Bool
  | Artifact.missing => false
  | _ => true

/-- `faiss.read_index` / `pickle.load`: `none` models the call raising. -/
def Artifact.readIt {α : Type} : Artifact α → Option α
  | Artifact.ok a => some a
  | _ => none

/-- `RetrieverAgent._load_index` (`retriever_agent.py` lines 36-53): when both
files exist, read the index, then the documents; an exception from either
read lands in the `except` clause, which installs a fresh empty
`IndexFlatL2` while `self.documents` keeps its initial `[]`.  When either
file is missing, a fresh empty index is installed directly. -/
def load_index (idxArt : Artifact (List (List Rat)))
    (docsArt : Artifact (List Doc)) : Store :=
  if idxArt.present && docsArt.present then
    match idxArt.readIt with
    | none => { index := [], documents := [] }
    | some idx =>
      match docsArt.readIt with
      | none => { index := [], documents := [] }
      | some docs => { index := idx, documents := docs }
  else { index := [], documents := [] }

/-! ## Context retrieval and the health probes -/

/-- `self.context_store["market_trends"]` (`retriever_agent.py` lines 28-34). -/
def market_trends : List String :=
  ["Tech stocks have shown strong momentum in recent weeks",
   "Asian markets are experiencing increased volatility",
   "Semiconductor sector faces supply chain challenges"]

/-- One entry of the `relevant_contexts` list (`retriever_agent.py`
lines 106-110). -/
structure RelContext where
  text : String
  category : String
  relevance : Rat
deriving DecidableEq

/-- `np.dot` of two equal-length vectors. -/
def dotProd : List Rat → List Rat → Rat
  | a :: as, b :: bs => a * b + dotProd as bs
  | _, _ => 0

/-- Insert index `i` into an ascending-by-value index list (insertion sort,
ties keeping the earlier index first; `np.argsort`'s tie order is
unspecified and no claim depends on it). -/
def insertIdxAsc (xs : List Rat) (i : Nat) : List Nat → List Nat
  | [] => [i]
  | j :: js =>
    if xs.getD i 0 < xs.getD j 0 then i :: j :: js else j :: insertIdxAsc xs i js

/-- `np.argsort(similarities)`: the indices sorted by value, ascending. -/
def argsortAsc (xs : List Rat) : List Nat :=
  (List.range xs.length).foldr (insertIdxAsc xs) []

/-- Stable insertion for `sorted(..., key=lambda x: x["relevance"], reverse=True)`. -/
def insertRelDesc (c : RelContext) : List RelContext → List RelContext
  | [] => [c]
  | d :: ds =>
    if c.relevance > d.relevance then c :: d :: ds else d :: insertRelDesc c ds

/-- Python's stable `sorted` by relevance, descending. -/
def sortRelDesc (cs : List RelContext) : List RelContext :=
  cs.foldr insertRelDesc []

/-- `RetrieverAgent.get_relevant_context` (`retriever_agent.py` lines 89-119):
embed the query and the stored category passages, rank by dot-product
similarity, keep the top two per category (`np.argsort(...)[-2:]`), and sort
the combined list by relevance descending.  `embed` is the external
`self.model.encode` on a single string; `none` models it raising, which the
`except` clause maps to the empty dict `{}` — modelled as `Option.none`; a
successful call returns the `contexts` list (the result dict then has the
two keys `contexts` and `timestamp`, hence is non-empty). -/
def get_relevant_context (embed : String → Option (List Rat))
    (query : String) : Option (List RelContext) :=
  match embed query with
  | none => none
  | some qv =>
    match market_trends.mapM embed with
    | none => none
    | some ctxVecs =>
      let sims := ctxVecs.map (fun v => dotProd v qv)
      let topIdx := (argsortAsc sims).drop (sims.length - 2)
      let rel := topIdx.map (fun idx =>
        { text := market_trends.getD idx "",
          category := "market_trends",
          relevance := sims.getD idx 0 })
      some (sortRelDesc rel)

/-- The `{healthy, timestamp, error?}` record each probe returns. -/
structure HealthReport where
  healthy : Bool
  timestamp : Nat
  errorMsg : Option String
deriving DecidableEq

/-- The query `RetrieverAgent.health_check` exercises (`retriever_agent.py`
line 177). -/
def retrieverHealthQuery : String := "How are tech stocks performing?"

/-- `RetrieverAgent.health_check` (`retriever_agent.py` lines 174-187):
perform one real `get_relevant_context` call and report
`healthy = len(context) > 0` (the success dict has two keys, the failure
dict none, so `healthy` is exactly the success of the exercised query). -/
def retrieverHealthCheck (embed : String → Option (List Rat)) (now : Nat) :
    HealthReport :=
  { healthy := (get_relevant_context embed retrieverHealthQuery).isSome,
    timestamp := now,
    errorMsg := none }

/-- The extended record `APIAgent.health_check` returns
(`api_agent.py` lines 215-220). -/
structure APIHealthReport where
  healthy : Bool
  timestamp : Nat
  cache_size : Nat
  last_request : Nat
deriving DecidableEq

/-- `APIAgent.health_check` (`api_agent.py` lines 211-226).  The body is
"Simple health check without fetching data" (its own comment, line 214): it
performs no fetch and no cache read, and the `healthy` flag is the constant
`True` — the `try` body cannot raise, so the `except` branch is dead. -/
def apiHealthCheck (st : CacheState) (now lastReq : Nat) : APIHealthReport :=
  { healthy := true,
    timestamp := now,
    cache_size := st.cache.length,
    last_request := lastReq }

/-! The analysis result dict (`analysis_agent.py` lines 52-59 and, for the
`except` fallback, lines 68-82), modelled as the association list Python's
`len` is taken over in `AnalysisAgent.health_check`. -/

/-- `self._analyze_market_summary` result (`analysis_agent.py` lines 84-108).
`volatility` carries the square of `np.std(changes)` (see `popVariance`). -/
structure MarketSummary where
  total_market_cap : Rat
  average_change : Rat
  volatility : Rat
deriving DecidableEq

/-- `AnalysisAgent._analyze_market_summary`. -/
def analyzeMarketSummary (snaps : List Snapshot) : MarketSummary :=
  if snaps.isEmpty then { total_market_cap := 0, average_change := 0, volatility := 0 }
  else
    let changes := snaps.map (fun s => s.change)
    { total_market_cap := (snaps.map (fun s => s.price)).sum,
      average_change := changes.sum / (changes.length : Rat),
      volatility := if changes.length > 1 then popVariance changes else 0 }

/-- `self._analyze_sentiment` result (`analysis_agent.py` lines 153-175);
articles are modelled by their `sentiment` values (`article.get('sentiment', 0)`). -/
structure Sentiment where
  average_sentiment : Rat
  article_count : Nat
deriving DecidableEq

/-- `AnalysisAgent._analyze_sentiment`. -/
def analyzeSentiment (articles : List Rat) : Sentiment :=
  if articles.isEmpty then { average_sentiment := 0, article_count := 0 }
  else
    { average_sentiment := articles.sum / (articles.length : Rat),
      article_count := articles.length }

/-- The heterogeneous values of the analysis result dict. -/
inductive AnalysisValue where
  | summary : MarketSummary → AnalysisValue
  | clusters : List RiskCluster → AnalysisValue
  | senti : Sentiment → AnalysisValue
  | num : Rat → AnalysisValue
  | strs : List String → AnalysisValue
  | time : Nat → AnalysisValue
deriving DecidableEq

/-- The dict `AnalysisAgent.analyze` assembles on success
(`analysis_agent.py` lines 52-59). -/
def analyze (fitPredict : List (List Rat) → Except Unit (List Nat))
    (now : Nat) (snaps : List Snapshot) (articles : List Rat) :
    List (String × AnalysisValue) :=
  [("market_summary", AnalysisValue.summary (analyzeMarketSummary snaps)),
   ("risk_clusters", AnalysisValue.clusters (analyzeRiskClusters fitPredict snaps)),
   ("sentiment", AnalysisValue.senti (analyzeSentiment articles)),
   ("confidence", AnalysisValue.num (85 / 100)),
   ("sources", AnalysisValue.strs ["Yahoo Finance", "Reuters", "Alpha Vantage"]),
   ("timestamp", AnalysisValue.time now)]

/-- The dict `analyze`'s `except` branch returns (`analysis_agent.py`
lines 68-82). -/
def analyzeFallback (now : Nat) : List (String × AnalysisValue) :=
  [("market_summary", AnalysisValue.summary { total_market_cap := 0, average_change := 0, volatility := 0 }),
   ("risk_clusters", AnalysisValue.clusters []),
   ("sentiment", AnalysisValue.senti { average_sentiment := 0, article_count := 0 }),
   ("confidence", AnalysisValue.num (1 / 2)),
   ("sources", AnalysisValue.strs ["Error: Data unavailable"]),
   ("timestamp", AnalysisValue.time now)]

/-- The sample batch `AnalysisAgent.health_check` feeds to `analyze`
(`analysis_agent.py` lines 181-185). -/
def analysisHealthTestSnaps : List Snapshot :=
  [{ symbol := "AAPL", price := 150, change := 3 / 2, volume := 1000000 }]

/-- `AnalysisAgent.health_check` (`analysis_agent.py` lines 177-203): call
`analyze` on the fixed sample data — a real operation — and report
`healthy = len(analysis) > 0`.  `raised` models the `try` body of `analyze`
raising (in which case `analyze` itself returns its fallback dict, not an
exception, so the probe's own `except` branch stays dead). -/
def analysisHealthCheck (fitPredict : List (List Rat) → Except Unit (List Nat))
    (raised : Bool) (now : Nat) : HealthReport :=
  let report :=
    if raised then analyzeFallback now
    else analyze fitPredict now analysisHealthTestSnaps []
  { healthy := decide (0 < report.length), timestamp := now, errorMsg := none }

/-- The keys of an association list, in order. -/
def dictKeys {α : Type} (m : List (String × α)) : List String :=
  m.map Prod.fst

/-- First-occurrence deduplication relative to a set of already-seen keys:
exactly the key order Python's `dict` produces when inserting in sequence. -/
def distinctKeysAux (seen : List String) : List String → List String
  | [] => []
  | x :: xs =>
    if x ∈ seen then distinctKeysAux seen xs
    else x :: distinctKeysAux (x :: seen) xs

/-- The distinct symbols of a request list, in first-occurrence order. -/
def distinctKeys (xs : List String) : List String := distinctKeysAux [] xs

/-- The symbol has no usable stored value: no entry in `self.cache`, and any
`lru_cache`-memoized result for it is the miss `none`. -/
def noStoredQuote (s₀ : String) (st : CacheState) : Prop :=
  dictGet st.cache s₀ = none ∧
    ∀ r, memoLookup st.memo s₀ = some r → r = none

/-- A concrete embedding capability for witnesses: one fixed vector per text. -/
def constEncode : List String → Option (List (List Rat)) :=
  fun ts => some (ts.map (fun _ => [(0 : Rat)]))

/-! ## Helper lemmas -/

theorem inFlightCount_set_inFlight_le (ts : List TaskPhase) (i : Nat) :
    inFlightCount (ts.set i TaskPhase.inFlight) ≤ inFlightCount ts + 1 := by
  induction ts generalizing i with
  | nil => simp [inFlightCount]
  | cons a ts ih =>
    cases i with
    | zero =>
      simp only [List.set, inFlightCount, List.countP_cons]
      have := @List.countP_cons TaskPhase (fun p => p == TaskPhase.inFlight) a ts
      split <;> omega
    | succ i =>
      simp only [List.set, inFlightCount, List.countP_cons]
      have h := ih i
      simp only [inFlightCount] at h
      omega

theorem inFlightCount_set_finished_le (ts : List TaskPhase) (i : Nat) :
    inFlightCount (ts.set i TaskPhase.finished) ≤ inFlightCount ts := by
  induction ts generalizing i with
  | nil => simp [inFlightCount]
  | cons a ts ih =>
    cases i with
    | zero =>
      simp only [List.set, inFlightCount, List.countP_cons]
      split <;> simp_all
    | succ i =>
      simp only [List.set, inFlightCount, List.countP_cons]
      have h := ih i
      simp only [inFlightCount] at h
      omega

theorem inFlightCount_replicate_pending (n : Nat) :
    inFlightCount (List.replicate n TaskPhase.pending) = 0 := by
  induction n with
  | zero => rfl
  | succ n ih => simp [List.replicate, inFlightCount, List.countP_cons] 

theorem findDocIdx_lt_length (ds : List Doc) (docId : String) (i : Nat)
    (h : findDocIdx ds docId = some i) : i < ds.length := by
  induction ds generalizing i with
  | nil => simp [findDocIdx] at h
  | cons d ds ih =>
    simp only [findDocIdx] at h
    split at h
    · cases h; exact Nat.succ_pos _
    · cases hr : findDocIdx ds docId with
      | none => rw [hr] at h; simp at h
      | some j =>
        rw [hr] at h
        simp at h
        have := ih j hr
        simp only [List.length_cons]
        omega

theorem listModify_length {α : Type} (l : List α) (i : Nat) (f : α → α) :
    (listModify l i f).length = l.length := by
  unfold listModify
  cases h : l.get? i with
  | none => rfl
  | some a => simp

/-! ## C4: bounded concurrency -/

/-- C4 (confirmed): during any execution of the concurrent fetch over an
arbitrarily long symbol list, the number of simultaneously in-flight
external fetch requests never exceeds `K = 10`.  Formally: along every
schedule reachable from the initial all-pending task list, under the
`asyncio.Semaphore(10)` admission discipline of `api_agent.py` lines 82-89,
`inFlightCount` never exceeds `semLimit = 10`. -/
theorem fetch_inflight_bounded (s : List TaskPhase) (h : FetchReachable s) :
    inFlightCount s ≤ semLimit := by
  induction h with
  | init n => rw [inFlightCount_replicate_pending]; exact Nat.zero_le _
  | step hr hstep ih =>
    cases hstep with
    | acquire i hp hsem =>
      exact Nat.le_trans (inFlightCount_set_inFlight_le _ i)
        (Nat.succ_le_of_lt hsem)
    | release i hf =>
      exact Nat.le_trans (inFlightCount_set_finished_le _ i) ih

/-- Witness for C4 at a concrete reachable state: twelve tasks (more than the
semaphore limit), one admitted. -/
theorem fetch_inflight_bounded_witness :
    inFlightCount ((List.replicate 12 TaskPhase.pending).set 0 TaskPhase.inFlight) ≤
      semLimit :=
  fetch_inflight_bounded _
    (FetchReachable.step (FetchReachable.init 12)
      (FetchStep.acquire _ 0 (by decide) (by decide)))

/-! ## C7: load fallback -/

/-- C7 (confirmed): on startup, if either persisted artifact is missing or
loading either one raises, `_load_index` leaves an empty index and an empty
document list; the artifacts are only used when both are present and
readable. -/
theorem load_index_fallback (idxArt : Artifact (List (List Rat)))
    (docsArt : Artifact (List Doc)) :
    (∀ idx docs, idxArt = Artifact.ok idx → docsArt = Artifact.ok docs →
      load_index idxArt docsArt = { index := idx, documents := docs })
    ∧ (idxArt.readIt = none ∨ docsArt.readIt = none →
      load_index idxArt docsArt = { index := [], documents := [] }) := by
  constructor
  · intro idx docs h1 h2
    subst h1; subst h2
    rfl
  · intro h
    cases idxArt <;> cases docsArt <;>
      simp_all [load_index, Artifact.present, Artifact.readIt]

/-- Witness for C7: a readable index next to a corrupt document file falls
back to the empty store; two readable artifacts are both used. -/
theorem load_index_fallback_witness :
    load_index (Artifact.ok [[1]]) Artifact.corrupt =
      { index := [], documents := [] } ∧
    load_index (Artifact.ok [[1]]) (Artifact.ok [{ id := "a", content := "x", timestamp := 0 }]) =
      { index := [[1]], documents := [{ id := "a", content := "x", timestamp := 0 }] } :=
  ⟨(load_index_fallback _ _).2 (Or.inr rfl),
   (load_index_fallback _ _).1 _ _ rfl rfl⟩

/-! ## C2: cache expiry -/

/-- C2 (code bug): the spec's cache contract fails on the code in both
directions.
First conjunct: `put("AAPL", v)` at `t = 0` followed — with no intervening
call — by a `get` at `t = 86410` (one day and ten seconds later, far past the
60-second TTL) still returns `v`, because `_get_cached_data` tests
`(datetime.now() - timestamp).seconds`, the elapsed time modulo one day,
which is `10 < 60` here.
Second conjunct: a `get` that missed, followed by `put("AAPL", v)` and an
immediate `get`, returns `None` instead of `v`, because the
`@lru_cache(maxsize=100)` decorator replays the memoized miss without
re-reading `self.cache`.  The docstring "Get cached data if available and
not expired" documents the intent both behaviours contradict. -/
theorem cache_ttl_violations :
    (cache_duration < 86410 ∧
      (getCachedData (putCache ⟨[], []⟩ 0 "AAPL" sampleQuote) 86410 "AAPL").1 =
        some sampleQuote)
    ∧ (getCachedData
        (putCache (getCachedData ⟨[], []⟩ 0 "AAPL").2 0 "AAPL" sampleQuote)
        0 "AAPL").1 = none :=
  ⟨⟨by decide, rfl⟩, rfl⟩

/-! ## C5: index/document length invariant -/

/-- C5 (confirmed): assuming the embedding capability returns one vector per
input text, every completed mutation of the store — `add_documents`,
`update_document`, `delete_document` — preserves
`len(index) == len(documents)`. -/
theorem store_length_invariant
    (encode : List String → Option (List (List Rat)))
    (hlen : ∀ ts vs, encode ts = some vs → vs.length = ts.length)
    (s : Store) (hs : s.index.length = s.documents.length) :
    (∀ docs, (add_documents encode docs s).index.length =
      (add_documents encode docs s).documents.length)
    ∧ (∀ docId content now,
      (update_document encode docId content now s).index.length =
        (update_document encode docId content now s).documents.length)
    ∧ (∀ docId, (delete_document docId s).index.length =
      (delete_document docId s).documents.length) := by
  refine ⟨?_, ?_, ?_⟩
  · intro docs
    unfold add_documents
    cases h : encode (docs.map (fun d => d.content)) with
    | none => exact hs
    | some embs =>
      have he : embs.length = docs.length := by
        have := hlen _ _ h
        simpa using this
      simp [List.length_append, hs, he]
  · intro docId content now
    unfold update_document
    cases hf : findDocIdx s.documents docId with
    | none => exact hs
    | some i =>
      cases h : encode [content] with
      | none => exact hs
      | some vs =>
        have he : vs.length = 1 := by
          have := hlen _ _ h
          simpa using this
        have hi : i < s.documents.length := findDocIdx_lt_length _ _ _ hf
        have hi' : i < s.index.length := by omega
        simp only [removeId, List.length_append,
          List.length_eraseIdx_of_lt hi', listModify_length, he]
        omega
  · intro docId
    unfold delete_document
    cases hf : findDocIdx s.documents docId with
    | none => exact hs
    | some i =>
      have hi : i < s.documents.length := findDocIdx_lt_length _ _ _ hf
      have hi' : i < s.index.length := by omega
      simp only [removeId, List.length_eraseIdx_of_lt hi',
        List.length_eraseIdx_of_lt hi]
      omega

theorem constEncode_len (ts : List String) (vs : List (List Rat))
    (h : constEncode ts = some vs) : vs.length = ts.length := by
  simp only [constEncode, Option.some.injEq] at h
  subst h
  simp

/-- Witness for C5: one add, one update and one delete on a concrete store
with a one-vector-per-text embedding capability. -/
theorem store_length_invariant_witness :
    ((add_documents constEncode
        [{ id := "a", content := "x", timestamp := 0 }] ⟨[], []⟩).index.length =
      (add_documents constEncode
        [{ id := "a", content := "x", timestamp := 0 }] ⟨[], []⟩).documents.length)
    ∧ ((update_document constEncode
        "a" "y" 1 ⟨[[5]], [{ id := "a", content := "x", timestamp := 0 }]⟩).index.length =
      (update_document constEncode
        "a" "y" 1 ⟨[[5]], [{ id := "a", content := "x", timestamp := 0 }]⟩).documents.length)
    ∧ ((delete_document "a"
        ⟨[[5]], [{ id := "a", content := "x", timestamp := 0 }]⟩).index.length =
      (delete_document "a"
        ⟨[[5]], [{ id := "a", content := "x", timestamp := 0 }]⟩).documents.length) :=
  ⟨(store_length_invariant constEncode constEncode_len ⟨[], []⟩ rfl).1 _,
   (store_length_invariant constEncode constEncode_len
      ⟨[[5]], [{ id := "a", content := "x", timestamp := 0 }]⟩ rfl).2.1 _ _ _,
   (store_length_invariant constEncode constEncode_len
      ⟨[[5]], [{ id := "a", content := "x", timestamp := 0 }]⟩ rfl).2.2 _⟩

/-! ## C8: health probes -/

/-- C8 (counterexample to the claim as stated): the API agent's probe reports
`healthy = true` as a constant — its body performs no operation of the
component — even in an environment in which the component's minimal real
operation (one fetch) fails for every one of its symbols.  So not *every*
component's healthy flag is obtained by exercising a real operation. -/
theorem apiHealthCheck_static_counterexample :
    (apiHealthCheck ⟨[], []⟩ 0 0).healthy = true
    ∧ (fetchConcurrentData (fun _ => none) ⟨[], []⟩ 0 marketSymbols).1 =
        [("AAPL", none), ("GOOGL", none), ("MSFT", none), ("AMZN", none)] :=
  ⟨rfl, by decide⟩

/-- C8 (amended): every probe returns a `{healthy, timestamp, error?}` record
(the `HealthReport` / `APIHealthReport` result types).  The retriever probe
derives `healthy` from one real embed-and-query operation (it is `true`
exactly when `get_relevant_context` succeeds); the analysis probe calls
`analyze` on sample data, whose result dict — normal or fallback — is never
empty, so its flag is `true` on every path; the API agent's probe, however,
is a static ping whose flag is the constant `true` with no operation
exercised. -/
theorem healthCheck_flags :
    (∀ st now lastReq, (apiHealthCheck st now lastReq).healthy = true)
    ∧ (∀ embed now, (retrieverHealthCheck embed now).healthy =
        (get_relevant_context embed retrieverHealthQuery).isSome)
    ∧ (∀ fitPredict raised now,
        (analysisHealthCheck fitPredict raised now).healthy = true) :=
  ⟨fun _ _ _ => rfl, fun _ _ => rfl, fun _ raised _ => by cases raised <;> rfl⟩

/-! ## Key structure of the combined fetch result (C3, C9) -/

theorem dictKeys_dictSet {α : Type} (m : List (String × α)) (k : String)
    (v : α) :
    dictKeys (dictSet m k v) =
      if k ∈ dictKeys m then dictKeys m else dictKeys m ++ [k] := by
  by_cases h : k ∈ dictKeys m
  · rw [if_pos h]
    have hany : m.any (fun p => p.1 == k) = true := by
      simp only [dictKeys, List.mem_map] at h
      obtain ⟨p, hp, hk⟩ := h
      exact List.any_eq_true.mpr ⟨p, hp, by simp [hk]⟩
    unfold dictSet
    rw [if_pos hany]
    unfold dictKeys
    rw [List.map_map]
    apply List.map_congr_left
    intro p _
    by_cases hpk : p.1 = k
    · simp [Function.comp, hpk]
    · simp [Function.comp, hpk]
  · rw [if_neg h]
    have hany : m.any (fun p => p.1 == k) = false := by
      rw [List.any_eq_false]
      intro p hp
      simp only [beq_iff_eq]
      intro hpk
      apply h
      unfold dictKeys
      exact List.mem_map.mpr ⟨p, hp, hpk⟩
    unfold dictSet
    rw [if_neg (by simp [hany])]
    unfold dictKeys
    simp

theorem distinctKeysAux_congr (s₁ s₂ : List String)
    (h : ∀ y, y ∈ s₁ ↔ y ∈ s₂) (xs : List String) :
    distinctKeysAux s₁ xs = distinctKeysAux s₂ xs := by
  induction xs generalizing s₁ s₂ with
  | nil => rfl
  | cons x xs ih =>
    simp only [distinctKeysAux]
    by_cases hx : x ∈ s₁
    · rw [if_pos hx, if_pos ((h x).mp hx)]
      exact ih s₁ s₂ h
    · rw [if_neg hx, if_neg (fun hc => hx ((h x).mpr hc))]
      refine congrArg (x :: ·) (ih _ _ ?_)
      intro y
      simp [h y]

theorem dictKeys_foldl_dictSet {α : Type} (pairs : List (String × α))
    (m : List (String × α)) :
    dictKeys (pairs.foldl (fun acc p => dictSet acc p.1 p.2) m) =
      dictKeys m ++ distinctKeysAux (dictKeys m) (pairs.map Prod.fst) := by
  induction pairs generalizing m with
  | nil => simp [distinctKeysAux]
  | cons p pairs ih =>
    simp only [List.foldl_cons, List.map_cons, distinctKeysAux]
    rw [ih, dictKeys_dictSet]
    by_cases h : p.1 ∈ dictKeys m
    · rw [if_pos h, if_pos h]
    · rw [if_neg h, if_neg h, List.append_assoc, List.singleton_append]
      refine congrArg (dictKeys m ++ ·) (congrArg (p.1 :: ·) ?_)
      exact distinctKeysAux_congr _ _ (fun y => by simp [List.mem_append, or_comm]) _

theorem distinctKeysAux_length_le (seen : List String) (xs : List String) :
    (distinctKeysAux seen xs).length ≤ xs.length := by
  induction xs generalizing seen with
  | nil => simp [distinctKeysAux]
  | cons x xs ih =>
    simp only [distinctKeysAux]
    by_cases hx : x ∈ seen
    · rw [if_pos hx]
      exact Nat.le_trans (ih seen) (Nat.le_succ _)
    · rw [if_neg hx]
      simpa using Nat.succ_le_succ (ih (x :: seen))

theorem distinctKeysAux_eq_self (seen : List String) (xs : List String)
    (hnd : xs.Nodup) (hdisj : ∀ x ∈ xs, x ∉ seen) :
    distinctKeysAux seen xs = xs := by
  induction xs generalizing seen with
  | nil => rfl
  | cons x xs ih =>
    simp only [distinctKeysAux]
    rw [if_neg (hdisj x (by simp))]
    refine congrArg (x :: ·) (ih _ (List.Nodup.of_cons hnd) ?_)
    intro y hy
    simp only [List.mem_cons]
    push_neg
    constructor
    · intro hyx
      subst hyx
      exact (List.nodup_cons.mp hnd).1 hy
    · exact hdisj y (by simp [hy])

theorem distinctKeysAux_length_lt (seen : List String) (xs : List String)
    (h : ¬ xs.Nodup ∨ ∃ x ∈ xs, x ∈ seen) :
    (distinctKeysAux seen xs).length < xs.length := by
  induction xs generalizing seen with
  | nil =>
    exfalso
    rcases h with h | ⟨x, hx, _⟩
    · exact h List.nodup_nil
    · simp at hx
  | cons x xs ih =>
    simp only [distinctKeysAux]
    by_cases hx : x ∈ seen
    · rw [if_pos hx]
      have := distinctKeysAux_length_le seen xs
      simp only [List.length_cons]
      omega
    · rw [if_neg hx]
      simp only [List.length_cons]
      have hrec : (distinctKeysAux (x :: seen) xs).length < xs.length := by
        apply ih
        rcases h with h | ⟨y, hy, hys⟩
        · rw [List.nodup_cons] at h
          push_neg at h
          by_cases hmem : x ∈ xs
          · exact Or.inr ⟨x, hmem, by simp⟩
          · exact Or.inl (h hmem)
        · rcases List.mem_cons.mp hy with rfl | hy2
          · exact absurd hys hx
          · exact Or.inr ⟨y, hy2, by simp [hys]⟩
      omega

theorem fetchSingle_fst (fetch : String → Option Quote) (st : CacheState)
    (now : Nat) (sym : String) :
    (fetchSingle fetch st now sym).1.1 = sym := by
  simp only [fetchSingle]
  cases (getCachedData st now sym).1 with
  | some d => rfl
  | none =>
    cases fetch sym with
    | some data => rfl
    | none => rfl

theorem fetchTasks_fst (fetch : String → Option Quote) (st : CacheState)
    (now : Nat) (symbols : List String) :
    (fetchTasks fetch st now symbols).1.map Prod.fst = symbols := by
  induction symbols generalizing st with
  | nil => rfl
  | cons sym rest ih =>
    simp only [fetchTasks, List.map_cons]
    rw [fetchSingle_fst, ih]

/-! ## C3: fetch completeness -/

/-- C3 (counterexample to the claim as stated): the duplicate request list
`["AAPL", "AAPL"]` has length 2, but the combined dict has a single entry,
so the result does not have "exactly N entries" for every length-N input. -/
theorem fetchConcurrentData_duplicate_counterexample :
    ¬ ((fetchConcurrentData (fun _ => none) ⟨[], []⟩ 0 ["AAPL", "AAPL"]).1.length =
        (["AAPL", "AAPL"] : List String).length) := by
  decide

/-- C3 (amended): the mapping returned by `_fetch_concurrent_data` has exactly
one entry per *distinct* requested symbol, in first-occurrence order — hence
exactly N entries whenever the N requested symbols are duplicate-free — and
each entry's value is a snapshot payload or `None` (the result value type),
regardless of how many individual fetches fail. -/
theorem fetchConcurrentData_keys (fetch : String → Option Quote)
    (st : CacheState) (now : Nat) (symbols : List String) :
    dictKeys (fetchConcurrentData fetch st now symbols).1 = distinctKeys symbols
    ∧ (symbols.Nodup →
        (fetchConcurrentData fetch st now symbols).1.length = symbols.length) := by
  have hkeys :
      dictKeys (fetchConcurrentData fetch st now symbols).1 = distinctKeys symbols := by
    unfold fetchConcurrentData
    rw [dictKeys_foldl_dictSet, fetchTasks_fst]
    simp [dictKeys, distinctKeys]
  refine ⟨hkeys, fun hnd => ?_⟩
  have hlen : (fetchConcurrentData fetch st now symbols).1.length =
      (dictKeys (fetchConcurrentData fetch st now symbols).1).length := by
    simp [dictKeys]
  rw [hlen, hkeys, distinctKeys,
    distinctKeysAux_eq_self [] symbols hnd (by simp)]

/-- Witness for C3's amended statement on a duplicate-free request list. -/
theorem fetchConcurrentData_keys_witness :
    dictKeys (fetchConcurrentData (fun _ => none) ⟨[], []⟩ 0 ["AAPL", "MSFT"]).1 =
      distinctKeys ["AAPL", "MSFT"]
    ∧ (fetchConcurrentData (fun _ => none) ⟨[], []⟩ 0 ["AAPL", "MSFT"]).1.length = 2 :=
  ⟨(fetchConcurrentData_keys _ _ _ _).1,
   (fetchConcurrentData_keys (fun _ => none) ⟨[], []⟩ 0 ["AAPL", "MSFT"]).2 (by decide)⟩

/-! ## C9: duplicates collapse -/

/-- C9 (confirmed): when the input list contains duplicates, the returned
mapping still has exactly one entry per distinct symbol, so its size equals
the number of distinct symbols and is strictly smaller than the input
length. -/
theorem fetchConcurrentData_duplicates_collapse (fetch : String → Option Quote)
    (st : CacheState) (now : Nat) (symbols : List String)
    (hdup : ¬ symbols.Nodup) :
    (fetchConcurrentData fetch st now symbols).1.length =
      (distinctKeys symbols).length
    ∧ (fetchConcurrentData fetch st now symbols).1.length < symbols.length := by
  have hkeys := (fetchConcurrentData_keys fetch st now symbols).1
  have hlen : (fetchConcurrentData fetch st now symbols).1.length =
      (dictKeys (fetchConcurrentData fetch st now symbols).1).length := by
    simp [dictKeys]
  constructor
  · rw [hlen, hkeys]
  · rw [hlen, hkeys]
    exact distinctKeysAux_length_lt [] symbols (Or.inl hdup)

/-- Witness for C9: the duplicate request `["AAPL", "AAPL"]` yields a
single-entry map. -/
theorem fetchConcurrentData_duplicates_collapse_witness :
    (fetchConcurrentData (fun _ => none) ⟨[], []⟩ 0 ["AAPL", "AAPL"]).1.length =
      (distinctKeys ["AAPL", "AAPL"]).length
    ∧ (fetchConcurrentData (fun _ => none) ⟨[], []⟩ 0 ["AAPL", "AAPL"]).1.length <
      (["AAPL", "AAPL"] : List String).length :=
  fetchConcurrentData_duplicates_collapse (fun _ => none) ⟨[], []⟩ 0
    ["AAPL", "AAPL"] (by decide)

/-! ## C6: per-symbol failure isolation -/

theorem find?_take {α : Type} (p : α → Bool) (l : List α) (n : Nat) (a : α)
    (h : (l.take n).find? p = some a) : l.find? p = some a := by
  induction l generalizing n with
  | nil => simp at h
  | cons x xs ih =>
    cases n with
    | zero => simp at h
    | succ n =>
      rw [List.take_succ_cons] at h
      by_cases hpx : p x
      · rw [List.find?_cons_of_pos _ hpx] at h ⊢
        exact h
      · rw [List.find?_cons_of_neg _ hpx] at h ⊢
        exact ih n h

theorem find?_eraseP_keys {α : Type} (l : List (String × α)) (k j : String)
    (hjk : j ≠ k) :
    (l.eraseP (fun p => p.1 == k)).find? (fun p => p.1 == j) =
      l.find? (fun p => p.1 == j) := by
  induction l with
  | nil => rfl
  | cons x xs ih =>
    by_cases hxk : x.1 = k
    · rw [List.eraseP_cons_of_pos (by simp [hxk])]
      rw [List.find?_cons_of_neg _
        (by simp only [hxk, beq_iff_eq]; exact fun h => hjk h.symm)]
    · rw [List.eraseP_cons_of_neg (by simp [hxk])]
      by_cases hxj : x.1 = j
      · rw [List.find?_cons_of_pos _ (by simp [hxj]),
          List.find?_cons_of_pos _ (by simp [hxj])]
      · rw [List.find?_cons_of_neg _ (by simp [hxj]),
          List.find?_cons_of_neg _ (by simp [hxj])]
        exact ih

theorem memoLookup_memoHit_self (memo : List (String × Option Quote))
    (k : String) : memoLookup (memoHit memo k) k = memoLookup memo k := by
  cases hf : memo.find? (fun p => p.1 == k) with
  | none => simp [memoHit, hf]
  | some e =>
    have hek' : e.1 = k := by
      have := List.find?_some hf
      simpa [beq_iff_eq] using this
    simp [memoHit, hf, memoLookup, hek']

theorem memoLookup_memoHit_ne (memo : List (String × Option Quote))
    (k j : String) (hjk : j ≠ k) :
    memoLookup (memoHit memo k) j = memoLookup memo j := by
  cases hf : memo.find? (fun p => p.1 == k) with
  | none => simp [memoHit, hf]
  | some e =>
    have hek' : e.1 = k := by
      have := List.find?_some hf
      simpa [beq_iff_eq] using this
    have hne : (e.1 == j) = false := by
      rw [hek', beq_eq_false_iff_ne]
      exact fun h => hjk h.symm
    simp [memoHit, hf, memoLookup, hne, find?_eraseP_keys _ _ _ hjk]

theorem memoLookup_memoInsert_self (memo : List (String × Option Quote))
    (k : String) (r : Option Quote) :
    memoLookup (memoInsert memo k r) k = some r := by
  unfold memoInsert memoLookup
  have h100 : ((k, r) :: memo).take 100 = (k, r) :: memo.take 99 :=
    List.take_succ_cons
  rw [h100, List.find?_cons_of_pos _ (by simp)]
  rfl

theorem memoLookup_memoInsert_ne (memo : List (String × Option Quote))
    (k j : String) (r : Option Quote) (hjk : j ≠ k) (r' : Option Quote)
    (h : memoLookup (memoInsert memo k r) j = some r') :
    memoLookup memo j = some r' := by
  unfold memoInsert memoLookup at h
  rw [Option.map_eq_some'] at h
  obtain ⟨e, he, hev⟩ := h
  have h2 := find?_take _ _ _ _ he
  rw [List.find?_cons_of_neg _
    (by simp only [beq_iff_eq]; exact fun hh => hjk hh.symm)] at h2
  unfold memoLookup
  rw [h2]
  simpa using hev

theorem find?_map_keyUpdate {α : Type} (m : List (String × α)) (k j : String)
    (v : α) (hjk : j ≠ k) :
    (m.map (fun p => if p.1 == k then (k, v) else p)).find?
        (fun p => p.1 == j) =
      m.find? (fun p => p.1 == j) := by
  induction m with
  | nil => rfl
  | cons x xs ih =>
    simp only [List.map_cons]
    by_cases hxk : x.1 = k
    · rw [if_pos (by simp [hxk])]
      rw [List.find?_cons_of_neg _
        (by simp only [beq_iff_eq]; exact fun h => hjk h.symm)]
      rw [List.find?_cons_of_neg _
        (by simp only [hxk, beq_iff_eq]; exact fun h => hjk h.symm)]
      exact ih
    · rw [if_neg (by simp [hxk])]
      by_cases hxj : x.1 = j
      · rw [List.find?_cons_of_pos _ (by simp [hxj]),
          List.find?_cons_of_pos _ (by simp [hxj])]
      · rw [List.find?_cons_of_neg _ (by simp [hxj]),
          List.find?_cons_of_neg _ (by simp [hxj])]
        exact ih

theorem find?_append_single_ne {α : Type} (m : List (String × α))
    (k j : String) (v : α) (hjk : j ≠ k) :
    (m ++ [(k, v)]).find? (fun p => p.1 == j) =
      m.find? (fun p => p.1 == j) := by
  induction m with
  | nil =>
    simp only [List.nil_append]
    rw [List.find?_cons_of_neg _
      (by simp only [beq_iff_eq]; exact fun h => hjk h.symm)]
  | cons x xs ih =>
    simp only [List.cons_append]
    by_cases hxj : x.1 = j
    · rw [List.find?_cons_of_pos _ (by simp [hxj]),
        List.find?_cons_of_pos _ (by simp [hxj])]
    · rw [List.find?_cons_of_neg _ (by simp [hxj]),
        List.find?_cons_of_neg _ (by simp [hxj])]
      exact ih

theorem dictGet_dictSet_ne {α : Type} (m : List (String × α)) (k j : String)
    (v : α) (hjk : j ≠ k) : dictGet (dictSet m k v) j = dictGet m j := by
  unfold dictSet dictGet
  by_cases hany : m.any (fun p => p.1 == k) = true
  · rw [if_pos hany, find?_map_keyUpdate _ _ _ _ hjk]
  · rw [if_neg hany, find?_append_single_ne _ _ _ _ hjk]

theorem dictGet_dictSet_self {α : Type} (m : List (String × α)) (k : String)
    (v : α) : dictGet (dictSet m k v) k = some v := by
  unfold dictSet dictGet
  by_cases hany : m.any (fun p => p.1 == k) = true
  · rw [if_pos hany]
    induction m with
    | nil => simp at hany
    | cons x xs ih =>
      by_cases hxk : x.1 = k
      · simp [hxk]
      · have hxs : xs.any (fun p => p.1 == k) = true := by
          rcases List.any_eq_true.mp hany with ⟨p, hp, hpk⟩
          rcases List.mem_cons.mp hp with rfl | hp2
          · exact absurd (by simpa [beq_iff_eq] using hpk) hxk
          · exact List.any_eq_true.mpr ⟨p, hp2, hpk⟩
        simp only [List.map_cons]
        rw [if_neg (by simp [hxk])]
        rw [List.find?_cons_of_neg _ (by simp [hxk])]
        exact ih hxs
  · rw [if_neg hany]
    induction m with
    | nil => simp
    | cons x xs ih =>
      have hx : (x.1 == k) = false := by
        rcases List.any_eq_false.mp (Bool.not_eq_true _ |>.mp hany) x
          (by simp) with h
        simpa using h
      simp only [List.cons_append]
      rw [List.find?_cons_of_neg _ (by simp [hx])]
      apply ih
      rw [Bool.not_eq_true]
      rw [List.any_eq_false]
      intro p hp
      have := List.any_eq_false.mp (Bool.not_eq_true _ |>.mp hany) p
        (by simp [hp])
      simpa using this

theorem dictGet_foldl_const (pairs : List (String × Option Quote))
    (m : List (String × Option Quote)) (k : String) (v : Option Quote)
    (hall : ∀ p ∈ pairs, p.1 = k → p.2 = v) (hm : dictGet m k = some v) :
    dictGet (pairs.foldl (fun acc p => dictSet acc p.1 p.2) m) k = some v := by
  induction pairs generalizing m with
  | nil => exact hm
  | cons p pairs ih =>
    simp only [List.foldl_cons]
    apply ih
    · exact fun q hq => hall q (by simp [hq])
    · by_cases hpk : p.1 = k
      · rw [hpk, hall p (by simp) hpk]
        exact dictGet_dictSet_self m k v
      · rw [dictGet_dictSet_ne _ _ _ _ (fun h => hpk h.symm)]
        exact hm

theorem dictGet_foldl_mem (pairs : List (String × Option Quote))
    (m : List (String × Option Quote)) (k : String) (v : Option Quote)
    (hall : ∀ p ∈ pairs, p.1 = k → p.2 = v)
    (hmem : k ∈ pairs.map Prod.fst) :
    dictGet (pairs.foldl (fun acc p => dictSet acc p.1 p.2) m) k = some v := by
  induction pairs generalizing m with
  | nil => simp at hmem
  | cons p pairs ih =>
    simp only [List.foldl_cons]
    by_cases hpk : p.1 = k
    · apply dictGet_foldl_const
      · exact fun q hq => hall q (by simp [hq])
      · rw [hpk, hall p (by simp) hpk]
        exact dictGet_dictSet_self m k v
    · apply ih
      · exact fun q hq => hall q (by simp [hq])
      · rw [List.map_cons] at hmem
        rcases List.mem_cons.mp hmem with h | h
        · exact absurd h.symm hpk
        · exact h

theorem dictGet_foldl_isSome_mono (pairs : List (String × Option Quote))
    (m : List (String × Option Quote)) (k : String)
    (hm : (dictGet m k).isSome = true) :
    (dictGet (pairs.foldl (fun acc p => dictSet acc p.1 p.2) m) k).isSome =
      true := by
  induction pairs generalizing m with
  | nil => exact hm
  | cons p pairs ih =>
    simp only [List.foldl_cons]
    apply ih
    by_cases hpk : p.1 = k
    · rw [hpk, dictGet_dictSet_self]
      rfl
    · rw [dictGet_dictSet_ne _ _ _ _ (fun h => hpk h.symm)]
      exact hm

theorem dictGet_foldl_isSome (pairs : List (String × Option Quote))
    (m : List (String × Option Quote)) (k : String)
    (hmem : k ∈ pairs.map Prod.fst) :
    (dictGet (pairs.foldl (fun acc p => dictSet acc p.1 p.2) m) k).isSome =
      true := by
  induction pairs generalizing m with
  | nil => simp at hmem
  | cons p pairs ih =>
    simp only [List.foldl_cons]
    by_cases hpk : p.1 = k
    · apply dictGet_foldl_isSome_mono
      rw [hpk, dictGet_dictSet_self]
      rfl
    · apply ih
      rw [List.map_cons] at hmem
      rcases List.mem_cons.mp hmem with h | h
      · exact absurd h.symm hpk
      · exact h

theorem getCachedData_preserves (st : CacheState) (now : Nat) (sym s₀ : String)
    (h : noStoredQuote s₀ st) :
    noStoredQuote s₀ (getCachedData st now sym).2
    ∧ (sym = s₀ → (getCachedData st now sym).1 = none) := by
  cases hm : memoLookup st.memo sym with
  | some r =>
    simp only [getCachedData, hm]
    constructor
    · refine ⟨h.1, ?_⟩
      intro r' hr'
      by_cases hss : s₀ = sym
      · subst hss
        rw [memoLookup_memoHit_self] at hr'
        exact h.2 r' hr'
      · rw [memoLookup_memoHit_ne _ _ _ hss] at hr'
        exact h.2 r' hr'
    · intro hsym
      subst hsym
      exact h.2 r hm
  | none =>
    simp only [getCachedData, hm]
    have hraw : sym = s₀ → getCachedDataRaw st now sym = none := by
      intro hsym
      subst hsym
      unfold getCachedDataRaw
      rw [h.1]
    constructor
    · refine ⟨h.1, ?_⟩
      intro r' hr'
      by_cases hss : s₀ = sym
      · subst hss
        rw [memoLookup_memoInsert_self] at hr'
        cases hr'
        exact hraw rfl
      · exact h.2 r' (memoLookup_memoInsert_ne _ _ _ _ hss r' hr')
    · exact hraw

theorem fetchSingle_preserves (fetch : String → Option Quote) (st : CacheState)
    (now : Nat) (sym s₀ : String) (hf : fetch s₀ = none)
    (h : noStoredQuote s₀ st) :
    noStoredQuote s₀ (fetchSingle fetch st now sym).2
    ∧ (sym = s₀ → (fetchSingle fetch st now sym).1 = (s₀, none)) := by
  have hg := getCachedData_preserves st now sym s₀ h
  simp only [fetchSingle]
  cases hc : (getCachedData st now sym).1 with
  | some d =>
    refine ⟨hg.1, ?_⟩
    intro hsym
    rw [hg.2 hsym] at hc
    cases hc
  | none =>
    cases hfe : fetch sym with
    | some data =>
      constructor
      · by_cases hss : sym = s₀
        · subst hss
          rw [hf] at hfe
          cases hfe
        · refine ⟨?_, hg.1.2⟩
          unfold putCache
          rw [dictGet_dictSet_ne _ _ _ _ (fun hh => hss hh.symm)]
          exact hg.1.1
      · intro hsym
        subst hsym
        rw [hf] at hfe
        cases hfe
    | none =>
      refine ⟨hg.1, ?_⟩
      intro hsym
      subst hsym
      rfl

theorem fetchTasks_none_for (fetch : String → Option Quote) (st : CacheState)
    (now : Nat) (symbols : List String) (s₀ : String)
    (hf : fetch s₀ = none) (h : noStoredQuote s₀ st) :
    ∀ p ∈ (fetchTasks fetch st now symbols).1, p.1 = s₀ → p.2 = none := by
  induction symbols generalizing st with
  | nil =>
    intro p hp
    simp [fetchTasks] at hp
  | cons sym rest ih =>
    intro p hp hpk
    simp only [fetchTasks, List.mem_cons] at hp
    rcases hp with hp1 | hp2
    · have hps := fetchSingle_preserves fetch st now sym s₀ hf h
      have hsym : sym = s₀ := by
        rw [hp1, fetchSingle_fst] at hpk
        exact hpk
      rw [hp1, hps.2 hsym]
    · exact ih (fetchSingle fetch st now sym).2
        (fetchSingle_preserves fetch st now sym s₀ hf h).1 p hp2 hpk

/-- C6 (confirmed): within one concurrent fetch call, when the external fetch
of a symbol `s₀` fails (and `s₀` has no usable cached value, so the fetch is
actually attempted), the combined mapping carries the explicit entry
`s₀ ↦ None` — and every requested symbol, `s₀`'s siblings included, still
has an entry: the failure aborts neither the sibling fetches nor the overall
call (which is a total function of the embedding). -/
theorem fetch_failure_isolation (fetch : String → Option Quote)
    (st : CacheState) (now : Nat) (symbols : List String) (s₀ : String)
    (hf : fetch s₀ = none) (hst : noStoredQuote s₀ st) (hmem : s₀ ∈ symbols) :
    dictGet (fetchConcurrentData fetch st now symbols).1 s₀ = some none
    ∧ ∀ sym ∈ symbols,
        (dictGet (fetchConcurrentData fetch st now symbols).1 sym).isSome =
          true := by
  constructor
  · unfold fetchConcurrentData
    apply dictGet_foldl_mem
    · exact fun p hp hpk =>
        fetchTasks_none_for fetch st now symbols s₀ hf hst p hp hpk
    · rw [fetchTasks_fst]
      exact hmem
  · intro sym hsym
    unfold fetchConcurrentData
    apply dictGet_foldl_isSome
    rw [fetchTasks_fst]
    exact hsym

/-- Witness for C6: fetching `["AAPL", "MSFT"]` where `"AAPL"` raises and
`"MSFT"` succeeds — the map records `AAPL ↦ None` and still has an entry for
`MSFT`. -/
theorem fetch_failure_isolation_witness :
    dictGet
        (fetchConcurrentData
          (fun s => if s == "MSFT" then some sampleQuote else none)
          ⟨[], []⟩ 0 ["AAPL", "MSFT"]).1 "AAPL" = some none
    ∧ (dictGet
        (fetchConcurrentData
          (fun s => if s == "MSFT" then some sampleQuote else none)
          ⟨[], []⟩ 0 ["AAPL", "MSFT"]).1 "MSFT").isSome = true :=
  ⟨(fetch_failure_isolation
      (fun s => if s == "MSFT" then some sampleQuote else none)
      ⟨[], []⟩ 0 ["AAPL", "MSFT"] "AAPL" (by decide)
      ⟨rfl, fun r hr => by cases hr⟩ (by simp)).1,
   (fetch_failure_isolation
      (fun s => if s == "MSFT" then some sampleQuote else none)
      ⟨[], []⟩ 0 ["AAPL", "MSFT"] "AAPL" (by decide)
      ⟨rfl, fun r hr => by cases hr⟩ (by simp)).2
      "MSFT" (by simp)⟩

/-! ## C10: market-data fallback -/

/-- C10 (confirmed): the `stocks` map `get_market_data` returns is never empty
and by construction contains no `None` values (its value type is the bare
payload): every entry is either a successfully fetched symbol's payload —
failed symbols are filtered out — or the fixed `"SAMPLE"` placeholder
`{price: 100.0, change: 1.5, volume: 1000000}`, which is returned exactly
when no symbol succeeded (and also by the outer `except` branch, whose body
is the same placeholder map). -/
theorem getMarketData_nonempty_sample (fetch : String → Option Quote)
    (st : CacheState) (now : Nat) :
    getMarketData fetch st now ≠ []
    ∧ ((∀ p ∈ (fetchConcurrentData fetch st now marketSymbols).1, p.2 = none) →
        getMarketData fetch st now = [("SAMPLE", sampleQuote)])
    ∧ (∀ sym q, (sym, q) ∈ getMarketData fetch st now →
        (sym, some q) ∈ (fetchConcurrentData fetch st now marketSymbols).1 ∨
          (sym, q) = ("SAMPLE", sampleQuote)) := by
  refine ⟨?_, ?_, ?_⟩
  · simp only [getMarketData]
    by_cases hemp :
        ((fetchConcurrentData fetch st now marketSymbols).1.filterMap
          (fun p => p.2.map (fun q => (p.1, q)))).isEmpty
    · rw [if_pos hemp]
      simp
    · rw [if_neg hemp]
      intro hc
      exact hemp (by rw [hc]; rfl)
  · intro hall
    have hnil :
        (fetchConcurrentData fetch st now marketSymbols).1.filterMap
          (fun p => p.2.map (fun q => (p.1, q))) = [] := by
      rw [List.filterMap_eq_nil_iff]
      intro p hp
      rw [hall p hp]
      rfl
    simp only [getMarketData]
    rw [if_pos (List.isEmpty_iff.mpr hnil)]
  · intro sym q hmem
    simp only [getMarketData] at hmem
    by_cases hemp :
        ((fetchConcurrentData fetch st now marketSymbols).1.filterMap
          (fun p => p.2.map (fun q => (p.1, q)))).isEmpty
    · rw [if_pos hemp] at hmem
      right
      simpa using hmem
    · rw [if_neg hemp] at hmem
      left
      rcases List.mem_filterMap.mp hmem with ⟨p, hp, hpq⟩
      cases hpv : p.2 with
      | none => rw [hpv] at hpq; cases hpq
      | some q' =>
        rw [hpv] at hpq
        simp only [Option.map_some'] at hpq
        injection hpq with hpq2
        injection hpq2 with h1 h2
        have hpeq : p = (sym, some q) := by
          rw [← h1, ← h2, ← hpv]
        exact hpeq ▸ hp

/-- Witness for C10: with every fetch failing, the stocks map is exactly the
`"SAMPLE"` placeholder. -/
theorem getMarketData_nonempty_sample_witness :
    getMarketData (fun _ => none) ⟨[], []⟩ 0 ≠ []
    ∧ getMarketData (fun _ => none) ⟨[], []⟩ 0 = [("SAMPLE", sampleQuote)] :=
  ⟨(getMarketData_nonempty_sample (fun _ => none) ⟨[], []⟩ 0).1,
   (getMarketData_nonempty_sample (fun _ => none) ⟨[], []⟩ 0).2.1 (by decide)⟩

/-! ## C1: clustering bound and partition -/

theorem clusterMembers_nil_labels (snaps : List Snapshot) (i : Nat) :
    clusterMembers snaps [] i = [] := by
  cases snaps <;> simp [clusterMembers]

theorem clusterMembers_cons (s : Snapshot) (snaps : List Snapshot) (l : Nat)
    (labels : List Nat) (i : Nat) :
    clusterMembers (s :: snaps) (l :: labels) i =
      if l = i then s.symbol :: clusterMembers snaps labels i
      else clusterMembers snaps labels i := by
  simp only [clusterMembers, List.zip_cons_cons, List.filter_cons]
  by_cases h : l = i
  · simp [h]
  · simp [h]

theorem mem_clusterMembers_imp (snaps : List Snapshot) (labels : List Nat)
    (i : Nat) (sym : String) (h : sym ∈ clusterMembers snaps labels i) :
    sym ∈ snaps.map (fun s => s.symbol) := by
  induction snaps generalizing labels with
  | nil => simp [clusterMembers] at h
  | cons s snaps ih =>
    cases labels with
    | nil =>
      rw [clusterMembers_nil_labels] at h
      cases h
    | cons l labels =>
      rw [clusterMembers_cons] at h
      rw [List.map_cons]
      by_cases hl : l = i
      · rw [if_pos hl] at h
        rcases List.mem_cons.mp h with h1 | h2
        · exact List.mem_cons.mpr (Or.inl h1)
        · exact List.mem_cons.mpr (Or.inr (ih labels h2))
      · rw [if_neg hl] at h
        exact List.mem_cons.mpr (Or.inr (ih labels h))

theorem clusterMembers_unique (snaps : List Snapshot) (sym : String)
    (i j : Nat) (labels : List Nat)
    (hnd : (snaps.map (fun s => s.symbol)).Nodup)
    (hi : sym ∈ clusterMembers snaps labels i)
    (hj : sym ∈ clusterMembers snaps labels j) : i = j := by
  induction snaps generalizing labels with
  | nil => simp [clusterMembers] at hi
  | cons s snaps ih =>
    cases labels with
    | nil =>
      rw [clusterMembers_nil_labels] at hi
      cases hi
    | cons l labels =>
      rw [clusterMembers_cons] at hi hj
      rw [List.map_cons] at hnd
      have hns : s.symbol ∉ snaps.map (fun s => s.symbol) :=
        (List.nodup_cons.mp hnd).1
      have hnd2 : (snaps.map (fun s => s.symbol)).Nodup :=
        (List.nodup_cons.mp hnd).2
      by_cases hsym : sym = s.symbol
      · subst hsym
        have htail : ∀ k, s.symbol ∉ clusterMembers snaps labels k :=
          fun k hk => hns (mem_clusterMembers_imp _ _ _ _ hk)
        by_cases hli : l = i
        · by_cases hlj : l = j
          · omega
          · rw [if_neg hlj] at hj
            exact absurd hj (htail j)
        · rw [if_neg hli] at hi
          exact absurd hi (htail i)
      · have hi' : sym ∈ clusterMembers snaps labels i := by
          by_cases hli : l = i
          · rw [if_pos hli] at hi
            rcases List.mem_cons.mp hi with h1 | h2
            · exact absurd h1 hsym
            · exact h2
          · rw [if_neg hli] at hi
            exact hi
        have hj' : sym ∈ clusterMembers snaps labels j := by
          by_cases hlj : l = j
          · rw [if_pos hlj] at hj
            rcases List.mem_cons.mp hj with h1 | h2
            · exact absurd h1 hsym
            · exact h2
          · rw [if_neg hlj] at hj
            exact hj
        exact ih labels hnd2 hi' hj'

theorem clusterMembers_exists (snaps : List Snapshot) (s : Snapshot)
    (labels : List Nat) (hlen : labels.length = snaps.length)
    (hs : s ∈ snaps) :
    ∃ i, i ∈ labels ∧ s.symbol ∈ clusterMembers snaps labels i := by
  induction snaps generalizing labels with
  | nil => cases hs
  | cons s' snaps ih =>
    cases labels with
    | nil => simp at hlen
    | cons l labels =>
      rcases List.mem_cons.mp hs with h1 | h2
      · refine ⟨l, by simp, ?_⟩
        rw [clusterMembers_cons, if_pos rfl, h1]
        exact List.mem_cons_self _ _
      · have hlen2 : labels.length = snaps.length := by simpa using hlen
        obtain ⟨i, hil, him⟩ := ih labels hlen2 h2
        refine ⟨i, by simp [hil], ?_⟩
        rw [clusterMembers_cons]
        by_cases hl : l = i
        · rw [if_pos hl]
          exact List.mem_cons.mpr (Or.inr him)
        · rw [if_neg hl]
          exact him

theorem countP_range_eqIdx (k i₀ : Nat) (h : i₀ < k) :
    List.countP (fun i => i == i₀) (List.range k) = 1 := by
  induction k with
  | zero => omega
  | succ k ih =>
    rw [List.range_succ, List.countP_append]
    by_cases hik : i₀ < k
    · rw [ih hik]
      have hfk : ((k == i₀) : Bool) = false := by
        rw [beq_eq_false_iff_ne]
        omega
      simp [List.countP_cons, hfk]
    · have hik2 : i₀ = k := by omega
      subst hik2
      have hz : List.countP (fun i => i == i₀) (List.range i₀) = 0 := by
        rw [List.countP_eq_zero]
        intro a ha
        have := List.mem_range.mp ha
        simp only [beq_iff_eq]
        omega
      rw [hz]
      simp [List.countP_cons]

theorem analyzeRiskClusters_cases
    (fitPredict : List (List Rat) → Except Unit (List Nat))
    (snaps : List Snapshot) :
    analyzeRiskClusters fitPredict snaps = []
    ∨ ∃ labels, fitPredict (featureRows snaps) = Except.ok labels ∧
        analyzeRiskClusters fitPredict snaps =
          (List.range (min 3 snaps.length)).filterMap
            (mkCluster snaps labels) := by
  simp only [analyzeRiskClusters]
  by_cases h1 : snaps.isEmpty
  · left
    rw [if_pos h1]
  · rw [if_neg h1]
    by_cases h2 : normalizableB snaps
    · rw [if_neg (by simp [h2])]
      by_cases h3 : min risk_levels.length snaps.length < 1
      · left
        rw [if_pos h3]
      · rw [if_neg h3]
        cases hf : fitPredict (featureRows snaps) with
        | error e => left; rfl
        | ok labels =>
          right
          exact ⟨labels, rfl, rfl⟩
    · left
      rw [if_pos (by simp [Bool.not_eq_true] at h2 ⊢; exact h2)]

theorem analyzeRiskClusters_ok
    (fitPredict : List (List Rat) → Except Unit (List Nat))
    (snaps : List Snapshot) (labels : List Nat)
    (hnorm : normalizableB snaps = true)
    (hfit : fitPredict (featureRows snaps) = Except.ok labels) :
    analyzeRiskClusters fitPredict snaps =
      (List.range (min 3 snaps.length)).filterMap (mkCluster snaps labels) := by
  have h2 : 2 ≤ snaps.length := by
    simp only [normalizableB, Bool.and_eq_true, decide_eq_true_eq] at hnorm
    exact hnorm.1.1.1
  have hne : ¬ (snaps.isEmpty = true) := by
    cases snaps with
    | nil => simp at h2
    | cons a l => simp
  have hmin : ¬ (min risk_levels.length snaps.length < 1) := by
    simp only [risk_levels, List.length_cons, List.length_nil]
    omega
  simp only [analyzeRiskClusters]
  rw [if_neg hne, if_neg (by simp [hnorm]), if_neg hmin, hfit]
  rfl

/-- C1 (counterexample to the claim as stated): a batch of M = 1 snapshot.
The agent's `MiniBatchKMeans` was fixed at construction to 3 clusters, so
`fit_predict` raises for fewer than 3 samples (`n_samples < n_clusters`) —
and independently the `ddof=1` standardization of a single row is `NaN` —
so the `except` clause returns `[]` and the input symbol `"AAPL"` appears in
no cluster: the partition half of the claim fails. -/
theorem analyzeRiskClusters_singleton_counterexample :
    analyzeRiskClusters kmeans3
        [{ symbol := "AAPL", price := 150, change := 2, volume := 1000000 }] = []
    ∧ ¬ clusterPartitionOk
        [{ symbol := "AAPL", price := 150, change := 2, volume := 1000000 }]
        (analyzeRiskClusters kmeans3
          [{ symbol := "AAPL", price := 150, change := 2, volume := 1000000 }]) := by
  constructor
  · rfl
  · intro h
    have h1 := h { symbol := "AAPL", price := 150, change := 2, volume := 1000000 }
      (List.mem_cons_self _ _)
    rw [show analyzeRiskClusters kmeans3
        [{ symbol := "AAPL", price := 150, change := 2, volume := 1000000 }] = []
      from rfl] at h1
    simp [List.countP_nil] at h1

/-- C1 (amended): for every batch and every clustering oracle, the returned
cluster list has at most `min(3, M)` clusters, all non-empty; and whenever
the run actually reaches a successful clustering — the batch symbols are
distinct (they are dict keys), the standardization is finite (M ≥ 2 and no
constant feature column), and `fit_predict` returns one label below
`min(3, M)` per snapshot — every input symbol appears in exactly one
cluster's member set. -/
theorem analyzeRiskClusters_bound_and_partition
    (fitPredict : List (List Rat) → Except Unit (List Nat))
    (snaps : List Snapshot) :
    (analyzeRiskClusters fitPredict snaps).length ≤ min 3 snaps.length
    ∧ (∀ c ∈ analyzeRiskClusters fitPredict snaps, c.symbols ≠ [])
    ∧ (∀ labels,
        (snaps.map (fun s => s.symbol)).Nodup →
        normalizableB snaps = true →
        fitPredict (featureRows snaps) = Except.ok labels →
        labels.length = snaps.length →
        (∀ l ∈ labels, l < min 3 snaps.length) →
        clusterPartitionOk snaps (analyzeRiskClusters fitPredict snaps)) := by
  refine ⟨?_, ?_, ?_⟩
  · rcases analyzeRiskClusters_cases fitPredict snaps with h | ⟨labels, hf, h⟩
    · rw [h]
      simp
    · rw [h]
      exact le_trans (List.length_filterMap_le _ _) (by simp)
  · intro c hc
    rcases analyzeRiskClusters_cases fitPredict snaps with h | ⟨labels, hf, h⟩
    · rw [h] at hc
      cases hc
    · rw [h] at hc
      rcases List.mem_filterMap.mp hc with ⟨i, hi, hmk⟩
      simp only [mkCluster] at hmk
      by_cases hemp : (clusterMembers snaps labels i).isEmpty
      · rw [if_pos hemp] at hmk
        cases hmk
      · rw [if_neg hemp] at hmk
        cases hmk
        intro hnil
        have hnil2 : clusterMembers snaps labels i = [] := hnil
        exact hemp (by rw [hnil2]; rfl)
  · intro labels hnd hnorm hfit hlen hlab
    rw [analyzeRiskClusters_ok fitPredict snaps labels hnorm hfit]
    intro s hs
    obtain ⟨i₀, hi₀l, hi₀m⟩ := clusterMembers_exists snaps s labels hlen hs
    have hi₀k : i₀ < min 3 snaps.length := hlab i₀ hi₀l
    rw [List.countP_filterMap]
    have hcongr : ∀ i ∈ List.range (min 3 snaps.length),
        ((((mkCluster snaps labels i).map
            (fun c => decide (s.symbol ∈ c.symbols))).getD false) = true) ↔
          ((i == i₀) = true) := by
      intro i hi
      simp only [mkCluster]
      by_cases hemp : (clusterMembers snaps labels i).isEmpty
      · rw [if_pos hemp]
        have hne : ¬ ((i == i₀) = true) := by
          rw [beq_iff_eq]
          intro he
          subst he
          rw [List.isEmpty_iff.mp hemp] at hi₀m
          cases hi₀m
        simp [hne]
      · rw [if_neg hemp]
        by_cases hmem : s.symbol ∈ clusterMembers snaps labels i
        · have hii : i = i₀ :=
            clusterMembers_unique snaps s.symbol i i₀ labels hnd hmem hi₀m
          subst hii
          simp [hmem]
        · have hne : ¬ ((i == i₀) = true) := by
            rw [beq_iff_eq]
            intro he
            subst he
            exact hmem hi₀m
          simp [hmem, hne]
    rw [List.countP_congr hcongr]
    exact countP_range_eqIdx _ i₀ hi₀k

/-- Witness for C1's amended statement: three snapshots with distinct
symbols and pairwise-different feature columns, and an oracle assigning
labels `[0, 1, 2]`. -/
theorem analyzeRiskClusters_bound_and_partition_witness :
    clusterPartitionOk
      [{ symbol := "AAPL", price := 150, change := 1, volume := 10 },
       { symbol := "MSFT", price := 151, change := 2, volume := 20 },
       { symbol := "TSM", price := 152, change := 3, volume := 30 }]
      (analyzeRiskClusters (fun _ => Except.ok [0, 1, 2])
        [{ symbol := "AAPL", price := 150, change := 1, volume := 10 },
         { symbol := "MSFT", price := 151, change := 2, volume := 20 },
         { symbol := "TSM", price := 152, change := 3, volume := 30 }]) :=
  (analyzeRiskClusters_bound_and_partition (fun _ => Except.ok [0, 1, 2])
    [{ symbol := "AAPL", price := 150, change := 1, volume := 10 },
     { symbol := "MSFT", price := 151, change := 2, volume := 20 },
     { symbol := "TSM", price := 152, change := 3, volume := 30 }]).2.2
    [0, 1, 2] (by decide) (by decide) rfl (by decide) (by decide)
